import Mathlib

/-!
Verification of the answer-synthesis and policy-enforcement engine of the
BUAA teaching-evaluation automation tool (`form.py`).

The Python source is shallowly embedded: each Python function becomes a
Lean function of the same name (where Lean allows); Python `None` entries
of an answer list become `Option` values; code paths that raise a Python
exception (AttributeError on a `None` dereference, IndexError on an
out-of-range index, ValueError on an unknown strategy name) are modelled
by `Option`/`Except` failure values.  Numeric option scores, parsed in
Python with `float(...)`, are modelled as exact rationals.
-/

/-- Models the Python dataclass `Option` of `form.py` (renamed `Opt`
because `Option` is taken by Lean): one selectable answer, with its
identifier, human-readable content label and score. -/
structure Opt where
  id : String
  content : String
  pts : ℚ
deriving DecidableEq, Repr

/-- Models the Python dataclass `Question` of `form.py`: one questionnaire
item with its type code, identifier and option list. -/
structure Question where
  isChoice : Bool
  type : String
  id : String
  options : List Opt
deriving DecidableEq, Repr

/-- The neutral tier label used by `enforce_rules`. -/
def midLabel : String := "中等"

/-- The passing-or-above label set `['中等', '良好', '优秀']` from rule 2 of
`enforce_rules`. -/
def passingSet : List String := ["中等", "良好", "优秀"]

/-- Models `[option.content for option in choice_answer if option]` in
rule 1 of `enforce_rules`: the content labels of the answered entries. -/
def selectedContents (choice_answer : List (Option Opt)) : List String :=
  (choice_answer.filterMap id).map (fun o => o.content)

/-- Models the inner loop of rule 1: the first option of the list whose
content differs from `c`, if any. -/
def findAlt (c : String) : List Opt → Option Opt
  | [] => none
  | o :: rest => if o.content ≠ c then some o else findAlt c rest

/-- Models the inner loop of rule 2: the first option of the list whose
content is `'中等'`, if any. -/
def findMid : List Opt → Option Opt
  | [] => none
  | o :: rest => if o.content = midLabel then some o else findMid rest

/-- Models the outer loop of rule 1 of `enforce_rules`: scan the answers
in order; skip answered entries labelled `'中等'`; at the first entry whose
content differs, replace it by the first differently-labelled option of
its question (if any) and stop.  A `None` entry reached by the scan makes
Python dereference `None.content` (AttributeError), and a missing question
for the replacement index raises IndexError; both are modelled by `none`. -/
def rule1Scan : List (Option Opt) → List Question → Option (List (Option Opt))
  | [], _ => some []
  | none :: _, _ => none
  | some o :: rest, qs =>
      if o.content = midLabel then
        (rule1Scan rest qs.tail).map (fun r => some o :: r)
      else
        match qs with
        | [] => none
        | q :: _ =>
            some ((match findAlt o.content q.options with
                   | some alt => some alt
                   | none => some o) :: rest)

/-- Rule 1 of `enforce_rules` (anti-uniformity): if all answered entries
share one content label (`len(set(selected_contents)) == 1`), run the
replacement scan. -/
def rule1 (choice_answer : List (Option Opt)) (choice_list : List Question) :
    Option (List (Option Opt)) :=
  if (selectedContents choice_answer).dedup.length = 1 then
    rule1Scan choice_answer choice_list
  else some choice_answer

/-- Models `sum(1 for option in choice_answer[:5] if option and
option.content in ['中等', '良好', '优秀'])` from rule 2 of `enforce_rules`. -/
def countPassing (choice_answer : List (Option Opt)) : Nat :=
  ((choice_answer.take 5).filterMap id).countP (fun o => o.content ∈ passingSet)

/-- Models the fixing loop `for i in range(5)` of rule 2 of
`enforce_rules`, with the remaining fuel as first argument: at the first
answered entry, replace it by the `'中等'`-labelled option of its question
(if any) and stop.  Indexing `choice_answer[i]` past the end of the answer
list, or `choice_list[i]` past the end of the question list, raises
IndexError in Python, modelled by `none`. -/
def rule2Fix : Nat → List (Option Opt) → List Question → Option (List (Option Opt))
  | 0, ans, _ => some ans
  | _ + 1, [], _ => none
  | n + 1, none :: rest, qs => (rule2Fix n rest qs.tail).map (fun r => none :: r)
  | _ + 1, some _ :: _, [] => none
  | _ + 1, some o :: rest, q :: _ =>
      some ((match findMid q.options with
             | some m => some m
             | none => some o) :: rest)

/-- Rule 2 of `enforce_rules` (minimum passing representation): if no
answered entry among the first five carries a passing-or-above label, run
the fixing loop over the first five positions. -/
def rule2 (choice_answer : List (Option Opt)) (choice_list : List Question) :
    Option (List (Option Opt)) :=
  if countPassing choice_answer = 0 then rule2Fix 5 choice_answer choice_list
  else some choice_answer

/-- Models `enforce_rules` of `form.py`: rule 1 followed by rule 2, where
`none` models a raised Python exception. -/
def enforce_rules (choice_answer : List (Option Opt)) (choice_list : List Question) :
    Option (List (Option Opt)) :=
  (rule1 choice_answer choice_list).bind (fun a1 => rule2 a1 choice_list)

/-- Models `gen_good_answer` of `form.py`: for each choice question the
highest-scored option `options[0]`, or no answer when no options exist. -/
def gen_good_answer (choice_list : List Question) : List (Option Opt) :=
  choice_list.map (fun q => q.options.head?)

/-- Models `gen_random_answer` of `form.py`.  Python draws with
`random.choice` from `options[:3]` when at least three options exist,
otherwise from all options; the source of randomness is modelled by the
injected index oracle `pick`, reduced modulo the pool size.  Empty option
lists yield no answer. -/
def gen_random_answer (pick : Nat → Nat) (choice_list : List Question) :
    List (Option Opt) :=
  choice_list.enum.map (fun p =>
    let q := p.2
    let pool := if 3 ≤ q.options.length then q.options.take 3 else q.options
    pool[pick p.1 % pool.length]?)

/-- Models `gen_worst_passing_answer` of `form.py`: for each choice
question `options[2]` when at least three options exist, otherwise the
last option `options[-1]`, and no answer when no options exist. -/
def gen_worst_passing_answer (choice_list : List Question) : List (Option Opt) :=
  choice_list.map (fun q =>
    if q.options ≠ [] then
      (if 3 ≤ q.options.length then q.options[2]? else q.options.getLast?)
    else none)

/-- Models one raw option block of the input record: identifier `tmxxid`,
label `xxmc` and score `xxfz` (parsed by Python with `float`, modelled as
an exact rational). -/
structure RawOption where
  tmxxid : String
  xxmc : String
  xxfz : ℚ
deriving DecidableEq, Repr

/-- Models one raw question block of the input record: type code `tmlx`,
identifier `tmid` and option blocks `tmxxlist`. -/
structure RawQuestion where
  tmlx : String
  tmid : String
  tmxxlist : List RawOption
deriving DecidableEq, Repr

/-- Builds one `Opt` from a raw option block, as the loop body of
`get_question_list` does. -/
def mkOption (o : RawOption) : Opt :=
  { id := o.tmxxid, content := o.xxmc, pts := o.xxfz }

/-- Inserts `x` into a list, skipping the elements of strictly larger
score and placing `x` before the first element of smaller-or-equal score.
Together with `sortDescByPts` this models Python's
`options.sort(key=lambda x: x.pts, reverse=True)`, a stable descending
sort: among equal scores the earlier element stays first. -/
def insertDesc (x : Opt) : List Opt → List Opt
  | [] => [x]
  | y :: ys => if x.pts < y.pts then y :: insertDesc x ys else x :: y :: ys

/-- Stable descending-by-score insertion sort, modelling
`options.sort(key=lambda x: x.pts, reverse=True)` in `get_question_list`. -/
def sortDescByPts : List Opt → List Opt
  | [] => []
  | x :: xs => insertDesc x (sortDescByPts xs)

/-- Builds one `Question` from a raw question block, as the loop body of
`get_question_list` does: `isChoice` is the type code being `'1'`, and the
options are sorted descending by score. -/
def mkQuestion (entry : RawQuestion) : Question :=
  { isChoice := entry.tmlx = "1"
    type := entry.tmlx
    id := entry.tmid
    options := sortDescByPts (entry.tmxxlist.map mkOption) }

/-- Models `get_question_list` of `form.py`, applied to the `tklist` of
question blocks extracted from the raw record. -/
def get_question_list (tklist : List RawQuestion) : List Question :=
  tklist.map mkQuestion

/-- Models the submission-header block `form_info['pjxtPjjgPjjgckb'][1]`
read by `fill_form`; all fields are opaque strings passed through
verbatim. -/
structure BasicInfo where
  wjid : String
  wjssrwid : String
  bprdm : String
  bprmc : String
  kcdm : String
  kcmc : String
  pjfs : String
  pjid : String
  pjlx : String
  pjrdm : String
  pjrjsdm : String
  pjrxm : String
  rwh : String
  stzjid : String
  xhgs : String
  xnxq : String
  sqzt : String
  yxfz : String
  sdrs : String
deriving DecidableEq, Repr

/-- Models the raw record handed to `fill_form`: the header list
`pjxtPjjgPjjgckb`, the question blocks (the `tklist` nested under
`pjxtWjWjbReturnEntity.wjzblist[0]`), and the pass-through `pjmap`. -/
structure FormInfo where
  pjxtPjjgPjjgckb : List BasicInfo
  tklist : List RawQuestion
  pjmap : String
deriving DecidableEq, Repr

/-- Models one per-question answer record appended to `answer_list` in
`fill_form`. -/
structure AnswerRecord where
  sjly : String
  stlx : String
  wjid : String
  wjssrwid : String
  wjstctid : String
  wjstid : String
  xxdalist : List String
deriving DecidableEq, Repr

/-- Models the single result object of `pjjglist` in the payload built by
`fill_form`; `pjdf` is the computed integer total score, everything else
is copied from the header or fixed. -/
structure ResultObj where
  bprdm : String
  bprmc : String
  kcdm : String
  kcmc : String
  pjdf : ℤ
  pjfs : String
  pjid : String
  pjlx : String
  pjmap : String
  pjrdm : String
  pjrjsdm : String
  pjrxm : String
  pjsx : Nat
  rwh : String
  stzjid : String
  wjid : String
  wjssrwid : String
  wtjjy : String
  xhgs : String
  xnxq : String
  sfxxpj : String
  sqzt : String
  yxfz : String
  sdrs : String
  zsxz : String
  sfnm : String
  pjxxlist : List AnswerRecord
deriving DecidableEq, Repr

/-- Models the final submission payload returned by `fill_form`. -/
structure Payload where
  pjidlist : List String
  pjjglist : List ResultObj
  pjzt : String
deriving DecidableEq, Repr

/-- The failure modes of `fill_form`: IndexError on a header list with
fewer than two elements, ValueError on an unknown strategy name, and an
exception escaping `enforce_rules`. -/
inductive FillError where
  | headerIndex : FillError
  | unknownMethod : String → FillError
  | enforceCrash : FillError
deriving DecidableEq, Repr

/-- Models Python's `int(...)` applied to a real number: truncation toward
zero, computed as the truncating division of the numerator by the
denominator. -/
def pyInt (q : ℚ) : ℤ := q.num.tdiv q.den

/-- On nonnegative arguments Python's `int(...)` agrees with the floor. -/
theorem pyInt_floor {q : ℚ} (h : 0 ≤ q) : pyInt q = ⌊q⌋ := by
  rw [pyInt, Rat.floor_def]
  exact Int.tdiv_eq_ediv (Rat.num_nonneg.mpr h) (Int.ofNat_nonneg q.den)

/-- Models `sum(q.pts for q in choice_answer if q)` in `fill_form`: the
sum of the scores of the chosen options, unanswered entries contributing
nothing. -/
def answerScoreSum (choice_answer : List (Option Opt)) : ℚ :=
  ((choice_answer.filterMap id).map (fun o => o.pts)).sum

/-- Models the strategy dispatch `if/elif/else` chain of `fill_form`;
`none` models the `ValueError` raised for an unrecognized method name. -/
def strategy_answer (method : String) (pick : Nat → Nat)
    (choice_list : List Question) : Option (List (Option Opt)) :=
  if method = "good" then some (gen_good_answer choice_list)
  else if method = "random" then some (gen_random_answer pick choice_list)
  else if method = "worst_passing" then some (gen_worst_passing_answer choice_list)
  else none

/-- The `[q for q in question_list if q.isChoice]` filter of `fill_form`. -/
def choice_questions (form_info : FormInfo) : List Question :=
  (get_question_list form_info.tklist).filter (fun q => q.isChoice)

/-- The `[q for q in question_list if not q.isChoice]` filter of
`fill_form`. -/
def other_questions (form_info : FormInfo) : List Question :=
  (get_question_list form_info.tklist).filter (fun q => ¬ q.isChoice)

/-- Models `fill_form` of `form.py`: read the header block at index 1 of
`pjxtPjjgPjjgckb` (IndexError when absent), parse and split the
questions, run the selected strategy (ValueError on an unknown name),
enforce the two policy rules on the choice answers, and assemble the
submission payload with the truncated total score.  The `pick` oracle
stands for Python's `random` module. -/
def fill_form (form_info : FormInfo) (method : String) (pick : Nat → Nat) :
    Except FillError Payload :=
  match form_info.pjxtPjjgPjjgckb[1]? with
  | none => Except.error FillError.headerIndex
  | some basic_info =>
    let choice_list := choice_questions form_info
    let other_list := other_questions form_info
    match strategy_answer method pick choice_list with
    | none => Except.error (FillError.unknownMethod method)
    | some choice_answer =>
      match enforce_rules choice_answer choice_list with
      | none => Except.error FillError.enforceCrash
      | some final_answer =>
        let total_score := pyInt (answerScoreSum final_answer)
        let answer_list :=
          (choice_list.zip final_answer).map (fun p =>
            { sjly := "1"
              stlx := p.1.type
              wjid := basic_info.wjid
              wjssrwid := basic_info.wjssrwid
              wjstctid := ""
              wjstid := p.1.id
              xxdalist := [(p.2.map (fun o => o.id)).getD ""] : AnswerRecord })
          ++ other_list.map (fun q =>
            { sjly := "1"
              stlx := q.type
              wjid := basic_info.wjid
              wjssrwid := basic_info.wjssrwid
              wjstctid := ((q.options.head?).map (fun o => o.id)).getD ""
              wjstid := q.id
              xxdalist := [""] : AnswerRecord })
        Except.ok
          { pjidlist := []
            pjjglist := [
              { bprdm := basic_info.bprdm
                bprmc := basic_info.bprmc
                kcdm := basic_info.kcdm
                kcmc := basic_info.kcmc
                pjdf := total_score
                pjfs := basic_info.pjfs
                pjid := basic_info.pjid
                pjlx := basic_info.pjlx
                pjmap := form_info.pjmap
                pjrdm := basic_info.pjrdm
                pjrjsdm := basic_info.pjrjsdm
                pjrxm := basic_info.pjrxm
                pjsx := 1
                rwh := basic_info.rwh
                stzjid := basic_info.stzjid
                wjid := basic_info.wjid
                wjssrwid := basic_info.wjssrwid
                wtjjy := ""
                xhgs := basic_info.xhgs
                xnxq := basic_info.xnxq
                sfxxpj := "1"
                sqzt := basic_info.sqzt
                yxfz := basic_info.yxfz
                sdrs := basic_info.sdrs
                zsxz := basic_info.pjrjsdm
                sfnm := "1"
                pjxxlist := answer_list } ]
            pjzt := "1" }

/-- The total score stored in the payload's single result object. -/
def payload_total (p : Payload) : Option ℤ :=
  (p.pjjglist.head?).map (fun r => r.pjdf)

/-- The total score of a `fill_form` result, `none` on failure. -/
def exceptTotal (e : Except FillError Payload) : Option ℤ :=
  match e with
  | Except.ok p => payload_total p
  | Except.error _ => none

/-- Index of the first answered entry of an answer list, if any. -/
def firstSomeIdx : List (Option Opt) → Option Nat
  | [] => none
  | some _ :: _ => some 0
  | none :: rest => (firstSomeIdx rest).map (fun k => k + 1)

theorem firstSomeIdx_lt_length :
    ∀ {l : List (Option Opt)} {k : Nat}, firstSomeIdx l = some k → k < l.length
  | [], _, h => by simp [firstSomeIdx] at h
  | some _ :: _, _, h => by
      simp only [firstSomeIdx, Option.some.injEq] at h
      simp [← h]
  | none :: rest, _, h => by
      simp only [firstSomeIdx, Option.map_eq_some'] at h
      obtain ⟨k', hk', rfl⟩ := h
      have := firstSomeIdx_lt_length hk'
      simp
      omega

theorem firstSomeIdx_zero {l : List (Option Opt)} (h : firstSomeIdx l = some 0) :
    ∃ x t, l = some x :: t := by
  match l with
  | [] => simp [firstSomeIdx] at h
  | some x :: t => exact ⟨x, t, rfl⟩
  | none :: t =>
      simp only [firstSomeIdx, Option.map_eq_some'] at h
      obtain ⟨k', _, hk⟩ := h
      omega

theorem dedup_len_one_all_eq {α : Type} [DecidableEq α] {l : List α}
    (h : l.dedup.length = 1) {x y : α} (hx : x ∈ l) (hy : y ∈ l) : x = y := by
  obtain ⟨a, ha⟩ := List.length_eq_one.mp h
  have hx' : x ∈ l.dedup := List.mem_dedup.mpr hx
  have hy' : y ∈ l.dedup := List.mem_dedup.mpr hy
  rw [ha] at hx' hy'
  simp at hx' hy'
  rw [hx', hy']

theorem dedup_len_one_of_all_eq {α : Type} [DecidableEq α] {l : List α} {c : α}
    (hne : l ≠ []) (h : ∀ x ∈ l, x = c) : l.dedup.length = 1 := by
  have hd : ∀ x ∈ l.dedup, x = c := fun x hx => h x (List.mem_dedup.mp hx)
  have hnn : l.dedup ≠ [] := by
    intro hcon
    exact hne ((List.dedup_eq_nil l).mp hcon)
  have hnd : l.dedup.Nodup := List.nodup_dedup l
  match hh : l.dedup with
  | [] => exact absurd hh hnn
  | [_] => rfl
  | a :: b :: t =>
      rw [hh] at hd hnd
      have ha : a = c := hd a (by simp)
      have hb : b = c := hd b (by simp)
      rw [List.nodup_cons] at hnd
      exact absurd (ha.trans hb.symm) (fun he => hnd.1 (he ▸ List.mem_cons_self b t))

theorem two_le_dedup_length {α : Type} [DecidableEq α] {l : List α} {x y : α}
    (hx : x ∈ l) (hy : y ∈ l) (hxy : x ≠ y) : 2 ≤ l.dedup.length := by
  match hh : l.dedup with
  | [] =>
      have : x ∈ l.dedup := List.mem_dedup.mpr hx
      rw [hh] at this
      simp at this
  | [a] =>
      have hx' : x ∈ l.dedup := List.mem_dedup.mpr hx
      have hy' : y ∈ l.dedup := List.mem_dedup.mpr hy
      rw [hh] at hx' hy'
      simp at hx' hy'
      exact absurd (hx'.trans hy'.symm) hxy
  | _ :: _ :: _ => simp

theorem exists_map_some {ans : List (Option Opt)} (h : ∀ a ∈ ans, a.isSome) :
    ∃ os : List Opt, ans = os.map some := by
  induction ans with
  | nil => exact ⟨[], rfl⟩
  | cons a t ih =>
      obtain ⟨o, rfl⟩ := Option.isSome_iff_exists.mp (h a (List.mem_cons_self a t))
      obtain ⟨os, rfl⟩ := ih (fun x hx => h x (List.mem_cons_of_mem _ hx))
      exact ⟨o :: os, rfl⟩

theorem selectedContents_map_some (os : List Opt) :
    selectedContents (os.map some) = os.map (fun o => o.content) := by
  induction os with
  | nil => rfl
  | cons o t ih => simp [selectedContents] at ih ⊢

theorem findAlt_content :
    ∀ {c : String} {l : List Opt} {a : Opt}, findAlt c l = some a → a.content ≠ c := by
  intro c l
  induction l with
  | nil => intro a h; simp [findAlt] at h
  | cons o t ih =>
      intro a h
      by_cases hc : o.content = c
      · simp [findAlt, hc] at h
        exact ih h
      · simp [findAlt, hc] at h
        rw [← h]
        exact hc

theorem findAlt_isSome_of_exists {c : String} {l : List Opt}
    (h : ∃ x ∈ l, x.content ≠ c) : ∃ a, findAlt c l = some a := by
  induction l with
  | nil => simp at h
  | cons o t ih =>
      by_cases hc : o.content = c
      · simp [findAlt, hc]
        obtain ⟨x, hx, hxc⟩ := h
        rcases List.mem_cons.mp hx with rfl | hx'
        · exact absurd hc hxc
        · exact ih ⟨x, hx', hxc⟩
      · exact ⟨o, by simp [findAlt, hc]⟩

theorem findAlt_eq_none_all :
    ∀ {c : String} {l : List Opt}, findAlt c l = none → ∀ o ∈ l, o.content = c := by
  intro c l
  induction l with
  | nil => intro _ o ho; simp at ho
  | cons x t ih =>
      intro h o ho
      by_cases hc : x.content = c
      · simp [findAlt, hc] at h
        rcases List.mem_cons.mp ho with rfl | ho'
        · exact hc
        · exact ih h o ho'
      · simp [findAlt, hc] at h

theorem findMid_content :
    ∀ {l : List Opt} {m : Opt}, findMid l = some m → m.content = midLabel := by
  intro l
  induction l with
  | nil => intro m h; simp [findMid] at h
  | cons o t ih =>
      intro m h
      by_cases hc : o.content = midLabel
      · simp [findMid, hc] at h
        rw [← h]
        exact hc
      · simp [findMid, hc] at h
        exact ih h

theorem findMid_eq_none_of_all {l : List Opt} {c : String}
    (hc : c ≠ midLabel) (h : ∀ o ∈ l, o.content = c) : findMid l = none := by
  induction l with
  | nil => rfl
  | cons o t ih =>
      have ho : o.content = c := h o (List.mem_cons_self o t)
      have : o.content ≠ midLabel := by rw [ho]; exact hc
      simp [findMid, this]
      exact ih (fun x hx => h x (List.mem_cons_of_mem _ hx))

theorem rule1Scan_allMid :
    ∀ (ans : List (Option Opt)) (qs : List Question),
      (∀ a ∈ ans, ∃ o, a = some o ∧ o.content = midLabel) →
      rule1Scan ans qs = some ans
  | [], _, _ => rfl
  | a :: rest, qs, h => by
      obtain ⟨o, rfl, hmid⟩ := h a (List.mem_cons_self a rest)
      have ih := rule1Scan_allMid rest qs.tail
        (fun x hx => h x (List.mem_cons_of_mem _ hx))
      simp [rule1Scan, hmid, ih]

theorem rule1Scan_isSome :
    ∀ (ans : List (Option Opt)) (qs : List Question),
      (∀ a ∈ ans, a.isSome) → ans.length ≤ qs.length →
      (rule1Scan ans qs).isSome
  | [], _, _, _ => by simp [rule1Scan]
  | a :: rest, qs, hall, hlen => by
      obtain ⟨o, rfl⟩ := Option.isSome_iff_exists.mp (hall a (List.mem_cons_self a rest))
      match qs with
      | [] => simp at hlen
      | q :: qs' =>
          by_cases hmid : o.content = midLabel
          · have ih := rule1Scan_isSome rest qs'
              (fun x hx => hall x (List.mem_cons_of_mem _ hx))
              (by simpa using Nat.le_of_succ_le_succ hlen)
            simpa [rule1Scan, hmid] using ih
          · simp [rule1Scan, hmid]

theorem rule1Scan_firstSomeIdx {ans : List (Option Opt)} {qs : List Question}
    {a1 : List (Option Opt)} (h : rule1Scan ans qs = some a1) :
    firstSomeIdx a1 = firstSomeIdx ans := by
  match ans with
  | [] =>
      simp [rule1Scan] at h
      rw [← h]
  | none :: rest => simp [rule1Scan] at h
  | some o :: rest =>
      by_cases hmid : o.content = midLabel
      · simp [rule1Scan, hmid, Option.map_eq_some'] at h
        obtain ⟨r, _, hr⟩ := h
        rw [← hr]
        rfl
      · simp [rule1Scan, hmid] at h
        match qs with
        | [] => simp at h
        | q :: qs' =>
            simp at h
            cases hfa : findAlt o.content q.options with
            | none => simp [hfa] at h; rw [← h]
            | some alt => simp [hfa] at h; rw [← h]; rfl

theorem rule1_firstSomeIdx {ans : List (Option Opt)} {qs : List Question}
    {a1 : List (Option Opt)} (h : rule1 ans qs = some a1) :
    firstSomeIdx a1 = firstSomeIdx ans := by
  rw [rule1] at h
  split at h
  · exact rule1Scan_firstSomeIdx h
  · simp at h
    rw [h]

theorem rule2Fix_spec :
    ∀ (ans : List (Option Opt)) (n k : Nat) (qs : List Question)
      (qk : Question) (m : Opt), k < n →
      firstSomeIdx ans = some k → qs[k]? = some qk →
      findMid qk.options = some m →
      rule2Fix n ans qs = some (ans.set k (some m))
  | [], _, _, _, _, _, _, hfi, _, _ => by simp [firstSomeIdx] at hfi
  | some o :: rest, n, k, qs, qk, m, hkn, hfi, hq, hm => by
      have hk0 : k = 0 := by
        simp only [firstSomeIdx, Option.some.injEq] at hfi
        omega
      subst hk0
      match qs with
      | [] => simp at hq
      | q :: qs' =>
          simp at hq
          subst hq
          match n with
          | 0 => omega
          | n' + 1 => simp [rule2Fix, hm]
  | none :: rest, n, k, qs, qk, m, hkn, hfi, hq, hm => by
      simp only [firstSomeIdx, Option.map_eq_some'] at hfi
      obtain ⟨k', hk', rfl⟩ := hfi
      match n with
      | 0 => omega
      | n' + 1 =>
          match qs with
          | [] => simp at hq
          | q :: qs' =>
              simp at hq
              have ih := rule2Fix_spec rest n' k' qs' qk m (by omega) hk' hq hm
              simp [rule2Fix, ih]

theorem countPassing_pos_head {a : Opt} {l : List (Option Opt)}
    (h : a.content ∈ passingSet) : countPassing (some a :: l) ≠ 0 := by
  simp [countPassing, List.take_succ_cons, List.countP_cons, h]

theorem countPassing_zero_second {a b : Opt} {l : List (Option Opt)}
    (h : countPassing (some a :: some b :: l) = 0) : b.content ∉ passingSet := by
  intro hb
  simp [countPassing, List.take_succ_cons, List.countP_cons, hb] at h

theorem countPassing_zero_head {a : Opt} {l : List (Option Opt)}
    (h : countPassing (some a :: l) = 0) : a.content ∉ passingSet := by
  intro ha
  exact countPassing_pos_head ha h

theorem countPassing_set_pos {l : List (Option Opt)} {k : Nat} {m : Opt}
    (hk5 : k < 5) (hkl : k < l.length) (hm : m.content ∈ passingSet) :
    0 < countPassing (l.set k (some m)) := by
  rw [countPassing]
  rw [List.countP_pos_iff]
  refine ⟨m, ?_, by simpa using hm⟩
  rw [List.mem_filterMap]
  refine ⟨some m, ?_, rfl⟩
  have h1 : ((l.set k (some m)).take 5)[k]? = (l.set k (some m))[k]? := by
    exact List.getElem?_take_of_lt hk5
  have h2 : (l.set k (some m))[k]? = some (some m) := by
    rw [List.getElem?_set_self]
    · exact hkl
  exact List.getElem?_mem (h1.trans h2)

/-- Concrete option with a non-passing label, for counterexamples and
witnesses. -/
def oPoor : Opt := { id := "op", content := "poor", pts := 1 }

/-- Concrete option with a second non-passing label. -/
def oPoor2 : Opt := { id := "op2", content := "poor2", pts := 2 }

/-- Concrete option labelled `'中等'`. -/
def oMid : Opt := { id := "om", content := "中等", pts := 4 }

/-- Concrete option labelled `'良好'`. -/
def oGood : Opt := { id := "og", content := "良好", pts := 7 }

/-- Concrete question whose only option is labelled `"poor"`. -/
def qPoorOnly : Question := { isChoice := true, type := "1", id := "q1", options := [oPoor] }

/-- Concrete question offering two differently-labelled non-passing
options. -/
def qPoor2Poor : Question := { isChoice := true, type := "1", id := "q2", options := [oPoor2, oPoor] }

/-- Concrete question offering a `'中等'` option and a `"poor"` option. -/
def qMidPoor : Question := { isChoice := true, type := "1", id := "q3", options := [oMid, oPoor] }

/-- Concrete question offering a `'良好'` option and a `'中等'` option. -/
def qGoodMid : Question := { isChoice := true, type := "1", id := "q4", options := [oGood, oMid] }

/-- C1 counterexample: on the position-aligned answer set `[None, None]`
for two questions (fewer than 5 entries, none answered), `enforce_rules`
raises IndexError in rule 2 (`choice_answer[2]` on a 2-element list), so
the Policy Enforcer is not total as the claim states. -/
theorem claim1_counterexample :
    enforce_rules [none, none] [qPoorOnly, qPoor2Poor] = none := by decide

/-- C1 (amended): the Policy Enforcer completes without error on every
non-empty position-aligned answer set all of whose entries are answered;
unanswered entries can make rule 1 dereference `None` and can make rule 2
index past the end of the answer list. -/
theorem claim1_theorem (ans : List (Option Opt)) (qs : List Question)
    (hlen : ans.length = qs.length) (hne : ans ≠ [])
    (hall : ∀ a ∈ ans, a.isSome) :
    (enforce_rules ans qs).isSome := by
  have h1 : (rule1 ans qs).isSome := by
    rw [rule1]
    split
    · exact rule1Scan_isSome ans qs hall (le_of_eq hlen)
    · simp
  obtain ⟨a1, ha1⟩ := Option.isSome_iff_exists.mp h1
  have hfi : firstSomeIdx a1 = firstSomeIdx ans := rule1_firstSomeIdx ha1
  obtain ⟨o, t, rfl⟩ : ∃ o t, ans = some o :: t := by
    match ans with
    | [] => exact absurd rfl hne
    | none :: t =>
        have := hall none (List.mem_cons_self _ _)
        simp at this
    | some o :: t => exact ⟨o, t, rfl⟩
  obtain ⟨x, t1, rfl⟩ := firstSomeIdx_zero (hfi.trans rfl)
  obtain ⟨q, qs', rfl⟩ : ∃ q qs', qs = q :: qs' := by
    match qs with
    | [] => simp at hlen
    | q :: qs' => exact ⟨q, qs', rfl⟩
  rw [enforce_rules, ha1]
  simp only [Option.some_bind]
  rw [rule2]
  split
  · cases hfm : findMid q.options <;> simp [rule2Fix, hfm]
  · simp

/-- C1 witness: the amended totality theorem applied to a concrete
all-answered two-entry answer set. -/
theorem claim1_witness :
    (enforce_rules [some oPoor, some oPoor] [qPoorOnly, qPoor2Poor]).isSome :=
  claim1_theorem _ _ (by decide) (by decide) (by decide)

/-- C8: `gen_worst_passing_answer` selects the index-2 option when at
least 3 options exist, the last option when 1 or 2 exist, and no answer
when the option list is empty. -/
theorem claim8_theorem (qs : List Question) (q : Question) (i : Nat)
    (hq : qs[i]? = some q) :
    (3 ≤ q.options.length →
      (gen_worst_passing_answer qs)[i]? = some (q.options[2]?))
    ∧ ((q.options.length = 1 ∨ q.options.length = 2) →
      (gen_worst_passing_answer qs)[i]? = some (q.options.getLast?))
    ∧ (q.options = [] → (gen_worst_passing_answer qs)[i]? = some none) := by
  have hmap : (gen_worst_passing_answer qs)[i]? =
      some (if q.options ≠ [] then
        (if 3 ≤ q.options.length then q.options[2]? else q.options.getLast?)
      else none) := by
    rw [gen_worst_passing_answer, List.getElem?_map, hq, Option.map_some']
  refine ⟨?_, ?_, ?_⟩
  · intro h3
    have hne : q.options ≠ [] := by
      intro hc
      rw [hc] at h3
      simp at h3
    rw [hmap, if_pos hne, if_pos h3]
  · intro h12
    have hne : q.options ≠ [] := by
      intro hc
      rw [hc] at h12
      simp at h12
    have h3 : ¬ 3 ≤ q.options.length := by
      rcases h12 with h | h <;> omega
    rw [hmap, if_pos hne, if_neg h3]
  · intro h0
    rw [hmap, if_neg (by simp [h0])]

/-- C8 witness: on a question with two options the strategy picks the
last (lowest-scored) one. -/
theorem claim8_witness :
    (gen_worst_passing_answer [qPoor2Poor])[0]? = some (qPoor2Poor.options.getLast?) :=
  (claim8_theorem [qPoor2Poor] qPoor2Poor 0 (by decide)).2.1 (by decide)

/-- Concrete submission-header block used by the concrete forms below. -/
def bi0 : BasicInfo :=
  ⟨"h1", "h2", "h3", "h4", "h5", "h6", "h7", "h8", "h9", "h10",
   "h11", "h12", "h13", "h14", "h15", "h16", "h17", "h18", "h19"⟩

/-- A trivial index oracle standing for the random source. -/
def pickZero : Nat → Nat := fun _ => 0

/-- Concrete raw choice question with a single non-passing option. -/
def rqPoor : RawQuestion :=
  { tmlx := "1", tmid := "t1",
    tmxxlist := [{ tmxxid := "op", xxmc := "poor", xxfz := 1 }] }

/-- Concrete raw form with one choice question and a two-element header
list. -/
def cex2Form : FormInfo :=
  { pjxtPjjgPjjgckb := [bi0, bi0], tklist := [rqPoor], pjmap := "pm" }

/-- C2 counterexample: passing the strategy name `worst` makes `fill_form`
raise ValueError instead of selecting the lowest-scored options, so
`worst` is not a supported strategy of the code. -/
theorem claim2_counterexample :
    fill_form cex2Form "worst" pickZero =
      Except.error (FillError.unknownMethod "worst") := by rfl

/-- C2 (amended): the strategy dispatch of `fill_form` accepts exactly the
three names `good`, `random` and `worst_passing` — each strategy producing
one entry per choice question — and raises ValueError (modelled by the
`unknownMethod` error) for every other name, in particular for `worst` and
`best`. -/
theorem claim2_theorem (f : FormInfo) (m : String) (pick : Nat → Nat)
    (b : BasicInfo) (hb : f.pjxtPjjgPjjgckb[1]? = some b)
    (hm : m ≠ "good" ∧ m ≠ "random" ∧ m ≠ "worst_passing") :
    fill_form f m pick = Except.error (FillError.unknownMethod m)
    ∧ (gen_good_answer (choice_questions f)).length = (choice_questions f).length
    ∧ (gen_random_answer pick (choice_questions f)).length = (choice_questions f).length
    ∧ (gen_worst_passing_answer (choice_questions f)).length = (choice_questions f).length := by
  refine ⟨?_, by simp [gen_good_answer], by simp [gen_random_answer],
    by simp [gen_worst_passing_answer]⟩
  unfold fill_form
  rw [hb]
  have hs : strategy_answer m pick (choice_questions f) = none := by
    rw [strategy_answer, if_neg hm.1, if_neg hm.2.1, if_neg hm.2.2]
  simp only
  rw [hs]

/-- C2 witness: the amended dispatch theorem applied at the name `worst`
on the concrete form. -/
theorem claim2_witness :
    fill_form cex2Form "worst" pickZero =
        Except.error (FillError.unknownMethod "worst")
    ∧ (gen_good_answer (choice_questions cex2Form)).length =
        (choice_questions cex2Form).length
    ∧ (gen_random_answer pickZero (choice_questions cex2Form)).length =
        (choice_questions cex2Form).length
    ∧ (gen_worst_passing_answer (choice_questions cex2Form)).length =
        (choice_questions cex2Form).length :=
  claim2_theorem cex2Form "worst" pickZero bi0 (by rfl) (by decide)

/-- C10: `fill_form` reads the submission header only through index 1 of
the `pjxtPjjgPjjgckb` list — it fails with IndexError on every input whose
list has fewer than two elements, and its result is unchanged when the
whole list is replaced by any two-element list with the same element at
index 1. -/
theorem claim10_theorem (f : FormInfo) (m : String) (pick : Nat → Nat)
    (x : BasicInfo) :
    (f.pjxtPjjgPjjgckb.length < 2 →
      fill_form f m pick = Except.error FillError.headerIndex)
    ∧ fill_form
        { f with pjxtPjjgPjjgckb :=
            ((f.pjxtPjjgPjjgckb[1]?).map (fun b => [x, b])).getD [] } m pick
      = fill_form f m pick := by
  constructor
  · intro hlt
    have hnone : f.pjxtPjjgPjjgckb[1]? = none := List.getElem?_eq_none (by omega)
    unfold fill_form
    rw [hnone]
  · cases hb : f.pjxtPjjgPjjgckb[1]? with
    | none =>
        unfold fill_form
        rw [hb]
        rfl
    | some b =>
        unfold fill_form
        rw [hb]
        rfl

/-- Concrete form whose header list is empty. -/
def cex10Form : FormInfo :=
  { pjxtPjjgPjjgckb := [], tklist := [rqPoor], pjmap := "pm" }

/-- C10 witness: on a form with an empty header list `fill_form` fails
with the header IndexError, and rebuilding the header list from index 1
leaves the result unchanged. -/
theorem claim10_witness :
    fill_form cex10Form "good" pickZero = Except.error FillError.headerIndex
    ∧ fill_form
        { cex10Form with pjxtPjjgPjjgckb :=
            ((cex10Form.pjxtPjjgPjjgckb[1]?).map (fun b => [bi0, b])).getD [] }
        "good" pickZero
      = fill_form cex10Form "good" pickZero :=
  ⟨(claim10_theorem cex10Form "good" pickZero bi0).1 (by decide),
   (claim10_theorem cex10Form "good" pickZero bi0).2⟩

/-- C5 counterexample input: one choice question whose single option
scores -5/2.  Python's `int()` truncates the sum -5/2 to -2, while the
floor is -3, so the total score is not the floor of the score sum. -/
def cex5Form : FormInfo :=
  { pjxtPjjgPjjgckb := [bi0, bi0],
    tklist := [{ tmlx := "1", tmid := "tn",
                 tmxxlist := [{ tmxxid := "on", xxmc := "neg", xxfz := mkRat (-5) 2 }] }],
    pjmap := "pm" }

/-- C5 counterexample: on a score sum of -5/2 the payload carries total
score -2 (truncation toward zero), which differs from the floor -3. -/
theorem claim5_counterexample :
    exceptTotal (fill_form cex5Form "good" pickZero) = some (-2)
    ∧ (⌊(mkRat (-5) 2 : ℚ)⌋ : ℤ) = -3 := by
  constructor
  · with_unfolding_all rfl
  · rw [Rat.floor_def]
    decide

/-- C5 (amended): whenever `fill_form` succeeds, the payload's total score
is the truncation toward zero (Python `int()`) of the sum of the chosen
options' scores over the enforced answer set, unanswered entries
contributing 0; this coincides with the floor exactly on nonnegative
sums. -/
theorem claim5_theorem (f : FormInfo) (m : String) (pick : Nat → Nat)
    (b : BasicInfo) (ans res : List (Option Opt))
    (hb : f.pjxtPjjgPjjgckb[1]? = some b)
    (hs : strategy_answer m pick (choice_questions f) = some ans)
    (he : enforce_rules ans (choice_questions f) = some res) :
    exceptTotal (fill_form f m pick) = some (pyInt (answerScoreSum res))
    ∧ (0 ≤ answerScoreSum res →
        exceptTotal (fill_form f m pick) = some (⌊answerScoreSum res⌋ : ℤ)) := by
  have hmain : exceptTotal (fill_form f m pick) = some (pyInt (answerScoreSum res)) := by
    unfold fill_form
    rw [hb]
    simp only
    rw [hs]
    simp only
    rw [he]
    rfl
  refine ⟨hmain, fun hq => ?_⟩
  rw [hmain, pyInt_floor hq]

/-- The enforced answer set of the C5 witness run. -/
def w5res : List (Option Opt) :=
  [some { id := "op", content := "poor", pts := 1 }]

/-- C5 witness: the amended total-score theorem applied to a concrete
successful run with a nonnegative score sum. -/
theorem claim5_witness :
    exceptTotal (fill_form cex2Form "good" pickZero) = some (pyInt (answerScoreSum w5res))
    ∧ (0 ≤ answerScoreSum w5res →
        exceptTotal (fill_form cex2Form "good" pickZero) = some (⌊answerScoreSum w5res⌋ : ℤ)) :=
  claim5_theorem cex2Form "good" pickZero bi0 w5res w5res (by rfl) (by rfl) (by rfl)

/-- Raw option blocks of the end-to-end example: four options scored
10, 7, 4, 1 labelled with the English tier names of the example. -/
def rawExc : RawOption := { tmxxid := "x1", xxmc := "excellent", xxfz := 10 }

/-- Raw 7-point option of the end-to-end example. -/
def rawGoodE : RawOption := { tmxxid := "x2", xxmc := "good", xxfz := 7 }

/-- Raw 4-point option of the end-to-end example. -/
def rawAvgE : RawOption := { tmxxid := "x3", xxmc := "average", xxfz := 4 }

/-- Raw 1-point option of the end-to-end example. -/
def rawPoorE : RawOption := { tmxxid := "x4", xxmc := "poor", xxfz := 1 }

/-- One raw single-choice question of the end-to-end example. -/
def rawQ7 (n : String) : RawQuestion :=
  { tmlx := "1", tmid := n, tmxxlist := [rawExc, rawGoodE, rawAvgE, rawPoorE] }

/-- The raw form of the end-to-end example: five identical single-choice
questions. -/
def c7Form : FormInfo :=
  { pjxtPjjgPjjgckb := [bi0, bi0],
    tklist := [rawQ7 "a", rawQ7 "b", rawQ7 "c", rawQ7 "d", rawQ7 "e"],
    pjmap := "pm" }

/-- The parsed choice questions of the end-to-end example. -/
def c7Choices : List Question := choice_questions c7Form

/-- The parsed 4-point "average" option of the example. -/
def oAvg : Opt := mkOption rawAvgE

/-- The parsed 10-point "excellent" option of the example. -/
def oExc : Opt := mkOption rawExc

/-- C7 counterexample: on the end-to-end example the payload total score
is 26, not 20 — the total is computed after enforcement, which raises
question 0's selection to the 10-point option. -/
theorem claim7_counterexample :
    exceptTotal (fill_form c7Form "worst_passing" pickZero) = some 26
    ∧ (26 : ℤ) ≠ 20 := by
  constructor
  · with_unfolding_all rfl
  · decide

/-- C7 (amended): on the end-to-end example every initially selected
option is the 4-point "average" option (index 2); the anti-uniformity rule
replaces question 0's selection with the differently-labelled "excellent"
option from its own option list; the minimum-passing rule (whose passing
labels are the Chinese tier names) fires but finds no `'中等'` option and
makes no change; the total score of the payload, computed after
enforcement, is 26. -/
theorem claim7_theorem :
    gen_worst_passing_answer c7Choices = List.replicate 5 (some oAvg)
    ∧ oAvg.content = "average"
    ∧ oAvg.pts = 4
    ∧ rule1 (List.replicate 5 (some oAvg)) c7Choices
        = some (some oExc :: List.replicate 4 (some oAvg))
    ∧ oExc ∈ (mkQuestion (rawQ7 "a")).options
    ∧ oExc.content ≠ oAvg.content
    ∧ rule2 (some oExc :: List.replicate 4 (some oAvg)) c7Choices
        = some (some oExc :: List.replicate 4 (some oAvg))
    ∧ exceptTotal (fill_form c7Form "worst_passing" pickZero) = some 26 := by
  refine ⟨?_, rfl, rfl, ?_, ?_, ?_, ?_, ?_⟩
  · with_unfolding_all rfl
  · with_unfolding_all rfl
  · with_unfolding_all decide
  · decide
  · with_unfolding_all rfl
  · with_unfolding_all rfl

theorem mem_insertDesc {x a : Opt} {l : List Opt} :
    a ∈ insertDesc x l ↔ a = x ∨ a ∈ l := by
  induction l with
  | nil => simp [insertDesc]
  | cons y ys ih =>
      rw [insertDesc]
      split
      · simp only [List.mem_cons, ih]
        tauto
      · simp only [List.mem_cons]

theorem sorted_insertDesc {x : Opt} {l : List Opt}
    (h : l.Pairwise (fun a b => b.pts ≤ a.pts)) :
    (insertDesc x l).Pairwise (fun a b => b.pts ≤ a.pts) := by
  induction l with
  | nil => simp [insertDesc]
  | cons y ys ih =>
      rw [List.pairwise_cons] at h
      rw [insertDesc]
      split
      · rename_i hlt
        rw [List.pairwise_cons]
        refine ⟨fun a ha => ?_, ih h.2⟩
        rcases mem_insertDesc.mp ha with rfl | ha'
        · exact le_of_lt hlt
        · exact h.1 a ha'
      · rename_i hnlt
        rw [List.pairwise_cons]
        refine ⟨fun a ha => ?_, List.pairwise_cons.mpr ⟨h.1, h.2⟩⟩
        rcases List.mem_cons.mp ha with rfl | ha'
        · exact le_of_not_lt hnlt
        · exact le_trans (h.1 a ha') (le_of_not_lt hnlt)

theorem sorted_sortDescByPts (l : List Opt) :
    (sortDescByPts l).Pairwise (fun a b => b.pts ≤ a.pts) := by
  induction l with
  | nil => simp [sortDescByPts]
  | cons x xs ih =>
      rw [sortDescByPts]
      exact sorted_insertDesc ih

theorem filter_insertDesc_eq {x : Opt} {c : ℚ} (l : List Opt) (hx : x.pts = c) :
    (insertDesc x l).filter (fun o => o.pts = c) =
      x :: l.filter (fun o => o.pts = c) := by
  induction l with
  | nil => simp [insertDesc, List.filter_cons, hx]
  | cons y ys ih =>
      rw [insertDesc]
      split
      · rename_i hlt
        have hy : ¬ (y.pts = c) := by
          intro he
          rw [he, ← hx] at hlt
          exact lt_irrefl _ hlt
        simp [List.filter_cons, hy, ih]
      · simp [List.filter_cons, hx]

theorem filter_insertDesc_ne {x : Opt} {c : ℚ} (l : List Opt) (hx : ¬ x.pts = c) :
    (insertDesc x l).filter (fun o => o.pts = c) =
      l.filter (fun o => o.pts = c) := by
  induction l with
  | nil => simp [insertDesc, List.filter_cons, hx]
  | cons y ys ih =>
      rw [insertDesc]
      split
      · rw [List.filter_cons, List.filter_cons, ih]
      · simp [List.filter_cons, hx]

theorem filter_sortDescByPts (l : List Opt) (c : ℚ) :
    (sortDescByPts l).filter (fun o => o.pts = c) =
      l.filter (fun o => o.pts = c) := by
  induction l with
  | nil => rfl
  | cons x xs ih =>
      rw [sortDescByPts]
      by_cases hx : x.pts = c
      · rw [filter_insertDesc_eq _ hx, ih, List.filter_cons, if_pos (by simp [hx])]
      · rw [filter_insertDesc_ne _ hx, ih, List.filter_cons, if_neg (by simp [hx])]

/-- C9: every question produced by the parser has its options sorted
descending by score (pairwise, hence also between adjacent positions), and
the sort is stable: for every score value the subsequence of options
carrying that score is exactly the one of the raw input. -/
theorem claim9_theorem (tklist : List RawQuestion) (i : Nat)
    (entry : RawQuestion) (h : tklist[i]? = some entry) :
    (get_question_list tklist)[i]? = some (mkQuestion entry)
    ∧ (mkQuestion entry).options.Pairwise (fun a b => b.pts ≤ a.pts)
    ∧ (∀ j a b, (mkQuestion entry).options[j]? = some a →
        (mkQuestion entry).options[j + 1]? = some b → b.pts ≤ a.pts)
    ∧ ∀ c : ℚ, (mkQuestion entry).options.filter (fun o => o.pts = c)
        = (entry.tmxxlist.map mkOption).filter (fun o => o.pts = c) := by
  refine ⟨?_, sorted_sortDescByPts _, ?_, fun c => filter_sortDescByPts _ c⟩
  · rw [get_question_list, List.getElem?_map, h, Option.map_some']
  · intro j a b ha hb
    have hp : (mkQuestion entry).options.Pairwise (fun a b => b.pts ≤ a.pts) :=
      sorted_sortDescByPts _
    rw [List.pairwise_iff_getElem] at hp
    obtain ⟨hja, ha'⟩ := List.getElem?_eq_some_iff.mp ha
    obtain ⟨hjb, hb'⟩ := List.getElem?_eq_some_iff.mp hb
    have hthis := hp j (j + 1) hja hjb (by omega)
    rw [ha', hb'] at hthis
    exact hthis

/-- Concrete raw question with a score tie between two options. -/
def rqTie : RawQuestion :=
  { tmlx := "1", tmid := "tt",
    tmxxlist := [{ tmxxid := "ta", xxmc := "A", xxfz := 1 },
                 { tmxxid := "tb", xxmc := "B", xxfz := 2 },
                 { tmxxid := "tc", xxmc := "C", xxfz := 2 }] }

/-- C9 witness: the parser theorem applied to a concrete question with a
tie, instantiating the stability clause at the tied score. -/
theorem claim9_witness :
    (get_question_list [rqTie])[0]? = some (mkQuestion rqTie)
    ∧ (mkQuestion rqTie).options.filter (fun o => o.pts = 2)
        = (rqTie.tmxxlist.map mkOption).filter (fun o => o.pts = 2) :=
  ⟨(claim9_theorem [rqTie] 0 rqTie (by rfl)).1,
   (claim9_theorem [rqTie] 0 rqTie (by rfl)).2.2.2 2⟩

theorem filterMap_id_map_some (os : List Opt) : (os.map some).filterMap id = os := by
  induction os with
  | nil => rfl
  | cons o t ih => simp [ih]

theorem two_le_dedup_contents {x o₁ : Opt} {os' : List Opt} {c : String}
    (hx : x.content ≠ c) (h1 : o₁.content = c) :
    2 ≤ (selectedContents ((x :: o₁ :: os').map some)).dedup.length := by
  rw [selectedContents_map_some]
  refine two_le_dedup_length (x := x.content) (y := o₁.content) ?_ ?_ ?_
  · exact List.mem_map_of_mem _ (by simp)
  · exact List.mem_map_of_mem _ (by simp)
  · rw [h1]
    exact hx

/-- C3 counterexample: a size-2 all-"poor" answer set in which only the
second question offers a differently-labelled option.  Rule 1 only tries
the first non-neutral answer's own question, finds no alternative there,
and stops, so enforcement leaves the answered contents uniform. -/
theorem claim3_counterexample :
    (oPoor2 ∈ qPoor2Poor.options ∧ oPoor2.content ≠ oPoor.content)
    ∧ enforce_rules [some oPoor, some oPoor] [qPoorOnly, qPoor2Poor]
        = some [some oPoor, some oPoor]
    ∧ (selectedContents [some oPoor, some oPoor]).dedup.length = 1 := by
  refine ⟨⟨by decide, by decide⟩, by decide, by decide⟩

/-- C3 (amended): for every position-aligned answer set of size at least 2
in which every entry is answered, all entries share one content label
different from the neutral `'中等'`, and the first question's option list
contains a differently-labelled option, the enforcer succeeds and its
output carries at least 2 distinct content labels among the answered
entries. -/
theorem claim3_theorem (ans : List (Option Opt)) (qs : List Question)
    (c : String) (res : List (Option Opt))
    (hres : enforce_rules ans qs = some res)
    (hlen2 : 2 ≤ ans.length) (hall : ∀ a ∈ ans, a.isSome)
    (hshare : ∀ o ∈ ans.filterMap id, o.content = c) (hcmid : c ≠ midLabel)
    (halt : ∃ q, qs.head? = some q ∧ ∃ alt ∈ q.options, alt.content ≠ c) :
    2 ≤ (selectedContents res).dedup.length := by
  obtain ⟨os, rfl⟩ := exists_map_some hall
  rw [filterMap_id_map_some] at hshare
  rw [List.length_map] at hlen2
  obtain ⟨o₀, rest, rfl⟩ : ∃ a t, os = a :: t := by
    cases os with
    | nil => simp at hlen2
    | cons a t => exact ⟨a, t, rfl⟩
  obtain ⟨o₁, os', rfl⟩ : ∃ a t, rest = a :: t := by
    cases rest with
    | nil => simp at hlen2
    | cons a t => exact ⟨a, t, rfl⟩
  obtain ⟨q₀, hq0, alt, haltmem, haltc⟩ := halt
  obtain ⟨qs', rfl⟩ : ∃ t, qs = q₀ :: t := by
    cases qs with
    | nil => simp at hq0
    | cons q t =>
        rw [List.head?_cons] at hq0
        exact ⟨t, by rw [Option.some.inj hq0]⟩
  have hc0 : o₀.content = c := hshare o₀ (by simp)
  have hc1 : o₁.content = c := hshare o₁ (by simp)
  have hco : ¬ o₀.content = midLabel := by
    rw [hc0]
    exact hcmid
  have huni : (selectedContents ((o₀ :: o₁ :: os').map some)).dedup.length = 1 := by
    rw [selectedContents_map_some]
    refine dedup_len_one_of_all_eq (c := c) (by simp) ?_
    intro x hx
    obtain ⟨o, ho, rfl⟩ := List.mem_map.mp hx
    exact hshare o ho
  obtain ⟨alt', hfa⟩ := findAlt_isSome_of_exists (c := c) ⟨alt, haltmem, haltc⟩
  have haltc' : alt'.content ≠ c := findAlt_content hfa
  have hscan : rule1Scan ((o₀ :: o₁ :: os').map some) (q₀ :: qs')
      = some (some alt' :: (o₁ :: os').map some) := by
    simp only [List.map_cons, rule1Scan, if_neg hco]
    rw [hc0, hfa]
  rw [enforce_rules, rule1, if_pos huni, hscan, Option.some_bind, rule2] at hres
  by_cases hcp : countPassing (some alt' :: (o₁ :: os').map some) = 0
  · rw [if_pos hcp] at hres
    have hfix : rule2Fix 5 (some alt' :: (o₁ :: os').map some) (q₀ :: qs')
        = some ((match findMid q₀.options with
                 | some m => some m
                 | none => some alt') :: (o₁ :: os').map some) := by
      rfl
    rw [hfix] at hres
    obtain rfl := Option.some.inj hres
    cases hfm : findMid q₀.options with
    | none => exact two_le_dedup_contents haltc' hc1
    | some m =>
        have hmc : m.content ≠ c := by
          rw [findMid_content hfm]
          intro hcon
          exact hcmid hcon.symm
        exact two_le_dedup_contents hmc hc1
  · rw [if_neg hcp] at hres
    obtain rfl := Option.some.inj hres
    exact two_le_dedup_contents haltc' hc1

/-- C3 witness: the amended anti-uniformity theorem applied to a concrete
uniform "poor" answer set whose first question offers a "poor2" option. -/
theorem claim3_witness :
    2 ≤ (selectedContents [some oPoor2, some oPoor]).dedup.length :=
  claim3_theorem [some oPoor, some oPoor] [qPoor2Poor, qPoorOnly] "poor"
    [some oPoor2, some oPoor] (by decide) (by decide) (by decide) (by decide)
    (by decide) ⟨qPoor2Poor, by decide, oPoor2, by decide, by decide⟩

/-- C4 counterexample: a single answered entry labelled "poor" on a
question offering only that option.  No first-5 answer is passing and one
entry is answered, yet enforcement completes without introducing any
passing answer, because the first answered question has no `'中等'`
option. -/
theorem claim4_counterexample :
    countPassing [some oPoor] = 0
    ∧ firstSomeIdx [some oPoor] = some 0
    ∧ enforce_rules [some oPoor] [qPoorOnly] = some [some oPoor]
    ∧ ¬ 0 < countPassing [some oPoor] := by
  refine ⟨by decide, by decide, by decide, by decide⟩

/-- C4 (amended): if no answer among the first five is passing, some entry
among the first five is answered, the question of the first answered entry
offers a `'中等'`-labelled option, and enforcement completes, then the
enforced answer set has a passing answer among its first five entries. -/
theorem claim4_theorem (ans : List (Option Opt)) (qs : List Question)
    (res : List (Option Opt)) (k : Nat) (qk : Question)
    (hres : enforce_rules ans qs = some res)
    (hcp : countPassing ans = 0)
    (hk : firstSomeIdx ans = some k) (hk5 : k < 5)
    (hqk : qs[k]? = some qk) (hmid : (findMid qk.options).isSome) :
    0 < countPassing res := by
  rw [enforce_rules] at hres
  obtain ⟨a1, ha1, h2⟩ := Option.bind_eq_some.mp hres
  have hfi : firstSomeIdx a1 = some k := by
    rw [rule1_firstSomeIdx ha1, hk]
  rw [rule2] at h2
  by_cases hcp1 : countPassing a1 = 0
  · rw [if_pos hcp1] at h2
    obtain ⟨m, hm⟩ := Option.isSome_iff_exists.mp hmid
    have hfix := rule2Fix_spec a1 5 k qs qk m hk5 hfi hqk hm
    rw [hfix] at h2
    obtain rfl := Option.some.inj h2
    refine countPassing_set_pos hk5 (firstSomeIdx_lt_length hfi) ?_
    rw [findMid_content hm]
    decide
  · rw [if_neg hcp1] at h2
    obtain rfl := Option.some.inj h2
    exact Nat.pos_of_ne_zero hcp1

/-- C4 witness: the amended theorem applied to a "poor" answer on a
question that offers a `'中等'` option; enforcement turns it passing. -/
theorem claim4_witness : 0 < countPassing [some oMid] :=
  claim4_theorem [some oPoor] [qMidPoor] [some oMid] 0 qMidPoor
    (by decide) (by decide) (by decide) (by decide) (by decide) (by decide)

theorem countPassing_pos_second {a b : Opt} {l : List (Option Opt)}
    (h : b.content ∈ passingSet) :
    countPassing (some a :: some b :: l) ≠ 0 := by
  simp [countPassing, List.take_succ_cons, List.countP_cons, h]

theorem content_eq_of_dedup_one {x y : Opt} {l : List Opt}
    (h : (l.map (fun o => o.content)).dedup.length = 1)
    (hx : x ∈ l) (hy : y ∈ l) : x.content = y.content :=
  dedup_len_one_all_eq h (List.mem_map_of_mem _ hx) (List.mem_map_of_mem _ hy)

theorem rule1_of_not_uniform {l : List (Option Opt)} (qs : List Question)
    (h : (selectedContents l).dedup.length ≠ 1) : rule1 l qs = some l := by
  rw [rule1, if_neg h]

theorem rule1_scan_head {o₀ : Opt} {T : List (Option Opt)} (q₀ : Question)
    (qs' : List Question)
    (huni : (selectedContents (some o₀ :: T)).dedup.length = 1)
    (hco : ¬ o₀.content = midLabel) :
    rule1 (some o₀ :: T) (q₀ :: qs')
      = some ((match findAlt o₀.content q₀.options with
               | some alt => some alt
               | none => some o₀) :: T) := by
  rw [rule1, if_pos huni]
  simp only [rule1Scan, if_neg hco]

theorem rule2_of_pos {l : List (Option Opt)} {qs : List Question}
    (h : countPassing l ≠ 0) : rule2 l qs = some l := by
  rw [rule2, if_neg h]

theorem rule2_fix_head {x : Opt} {T : List (Option Opt)} (q₀ : Question)
    (qs' : List Question) (h : countPassing (some x :: T) = 0) :
    rule2 (some x :: T) (q₀ :: qs')
      = some ((match findMid q₀.options with
               | some m => some m
               | none => some x) :: T) := by
  rw [rule2, if_pos h]
  rfl

theorem enforce_eq_of {ans a1 res : List (Option Opt)} {qs : List Question}
    (hr1 : rule1 ans qs = some a1) (hr2 : rule2 a1 qs = some res) :
    enforce_rules ans qs = some res := by
  rw [enforce_rules, hr1, Option.some_bind, hr2]

theorem dedup_ne_one_of_head_ne {x o₁ : Opt} (os' : List Opt)
    (h : x.content ≠ o₁.content) :
    (selectedContents (some x :: some o₁ :: os'.map some)).dedup.length ≠ 1 := by
  intro hcon
  apply h
  have hsc := selectedContents_map_some (x :: o₁ :: os')
  simp only [List.map_cons] at hsc
  rw [hsc] at hcon
  exact dedup_len_one_all_eq hcon (by simp) (by simp)

/-- C6 counterexample: on a single "poor" answer for a question offering
"poor2" and "poor", the enforcer flips the answer to "poor2", and a second
application flips it back to "poor": the Policy Enforcer is not
idempotent. -/
theorem claim6_counterexample :
    enforce_rules [some oPoor] [qPoor2Poor] = some [some oPoor2]
    ∧ enforce_rules [some oPoor2] [qPoor2Poor] = some [some oPoor]
    ∧ (enforce_rules [some oPoor] [qPoor2Poor]).bind
        (fun r => enforce_rules r [qPoor2Poor])
      ≠ enforce_rules [some oPoor] [qPoor2Poor] := by
  refine ⟨by decide, by decide, by decide⟩

/-- C6 (amended): the Policy Enforcer is idempotent on every
position-aligned answer set with at least two entries in which every entry
is answered: running it twice yields the same result as running it once.
(With unanswered entries or a single entry, a second application can
change the result again or raise an error.) -/
theorem claim6_theorem (ans : List (Option Opt)) (qs : List Question)
    (hlen : ans.length = qs.length) (hlen2 : 2 ≤ ans.length)
    (hall : ∀ a ∈ ans, a.isSome) :
    (enforce_rules ans qs).bind (fun r => enforce_rules r qs)
      = enforce_rules ans qs := by
  obtain ⟨os, rfl⟩ := exists_map_some hall
  rw [List.length_map] at hlen hlen2
  obtain ⟨o₀, rest, rfl⟩ : ∃ a t, os = a :: t := by
    cases os with
    | nil => simp at hlen2
    | cons a t => exact ⟨a, t, rfl⟩
  obtain ⟨o₁, os', rfl⟩ : ∃ a t, rest = a :: t := by
    cases rest with
    | nil => simp at hlen2
    | cons a t => exact ⟨a, t, rfl⟩
  obtain ⟨q₀, qs', rfl⟩ : ∃ q t, qs = q :: t := by
    cases qs with
    | nil => simp at hlen
    | cons q t => exact ⟨q, t, rfl⟩
  simp only [List.map_cons]
  by_cases huni :
      (selectedContents (some o₀ :: some o₁ :: os'.map some)).dedup.length = 1
  · -- all answered entries share the label of the first entry
    have hallc : ∀ o ∈ o₀ :: o₁ :: os', o.content = o₀.content := by
      intro o ho
      have hsc := selectedContents_map_some (o₀ :: o₁ :: os')
      simp only [List.map_cons] at hsc
      rw [hsc] at huni
      exact dedup_len_one_all_eq huni
        (by simpa using List.mem_map_of_mem (fun o => o.content) ho) (by simp)
    have h1c : o₁.content = o₀.content := hallc o₁ (by simp)
    by_cases hcm : o₀.content = midLabel
    · -- every answered entry is the neutral label: both rules are no-ops
      have hr1 : rule1 (some o₀ :: some o₁ :: os'.map some) (q₀ :: qs')
          = some (some o₀ :: some o₁ :: os'.map some) := by
        rw [rule1, if_pos huni]
        apply rule1Scan_allMid
        intro a ha
        have ha' : a ∈ (o₀ :: o₁ :: os').map some := by
          simp only [List.map_cons]
          exact ha
        obtain ⟨o, ho, rfl⟩ := List.mem_map.mp ha'
        refine ⟨o, rfl, ?_⟩
        rw [hallc o ho]
        exact hcm
      have hr2 : rule2 (some o₀ :: some o₁ :: os'.map some) (q₀ :: qs')
          = some (some o₀ :: some o₁ :: os'.map some) :=
        rule2_of_pos (countPassing_pos_head (by rw [hcm]; decide))
      have hE := enforce_eq_of hr1 hr2
      rw [hE, Option.some_bind, hE]
    · -- the first entry is not neutral: rule 1 tries its question
      have hscan := rule1_scan_head (T := some o₁ :: os'.map some)
        q₀ qs' huni hcm
      cases hfa : findAlt o₀.content q₀.options with
      | none =>
          -- the first question offers no alternative: nothing changes
          simp only [hfa] at hscan
          have hopts := findAlt_eq_none_all hfa
          by_cases hcp : countPassing (some o₀ :: some o₁ :: os'.map some) = 0
          · have hfm : findMid q₀.options = none :=
              findMid_eq_none_of_all hcm hopts
            have hr2 := rule2_fix_head (x := o₀) (T := some o₁ :: os'.map some)
              q₀ qs' hcp
            simp only [hfm] at hr2
            have hE := enforce_eq_of hscan hr2
            rw [hE, Option.some_bind, hE]
          · have hE := enforce_eq_of hscan (rule2_of_pos hcp)
            rw [hE, Option.some_bind, hE]
      | some alt =>
          -- rule 1 replaces the first entry by a differently-labelled option
          simp only [hfa] at hscan
          have haltc : alt.content ≠ o₀.content := findAlt_content hfa
          have haltne : alt.content ≠ o₁.content := by
            intro he
            exact haltc (he.trans h1c)
          have hnu := dedup_ne_one_of_head_ne (x := alt) os' haltne
          by_cases hcp1 : countPassing (some alt :: some o₁ :: os'.map some) = 0
          · have hr2 := rule2_fix_head (x := alt) (T := some o₁ :: os'.map some)
              q₀ qs' hcp1
            cases hfm : findMid q₀.options with
            | none =>
                simp only [hfm] at hr2
                have hE := enforce_eq_of hscan hr2
                have hr2' := rule2_fix_head (x := alt) (T := some o₁ :: os'.map some)
                  q₀ qs' hcp1
                simp only [hfm] at hr2'
                have hE2 := enforce_eq_of (rule1_of_not_uniform (q₀ :: qs') hnu) hr2'
                rw [hE, Option.some_bind, hE2]
            | some m =>
                simp only [hfm] at hr2
                have hE := enforce_eq_of hscan hr2
                have hmc := findMid_content hfm
                have hmne : m.content ≠ o₁.content := by
                  intro he
                  apply hcm
                  rw [← h1c, ← he, hmc]
                have hnum := dedup_ne_one_of_head_ne (x := m) os' hmne
                have hcpm : countPassing (some m :: some o₁ :: os'.map some) ≠ 0 :=
                  countPassing_pos_head (by rw [hmc]; decide)
                have hE2 := enforce_eq_of (rule1_of_not_uniform (q₀ :: qs') hnum)
                  (rule2_of_pos hcpm)
                rw [hE, Option.some_bind, hE2]
          · have hE := enforce_eq_of hscan (rule2_of_pos hcp1)
            have hE2 := enforce_eq_of (rule1_of_not_uniform (q₀ :: qs') hnu)
              (rule2_of_pos hcp1)
            rw [hE, Option.some_bind, hE2]
  · -- the answered entries are not uniform: rule 1 is a no-op
    have hr1 := rule1_of_not_uniform (q₀ :: qs') huni
    by_cases hcp : countPassing (some o₀ :: some o₁ :: os'.map some) = 0
    · have hr2 := rule2_fix_head (x := o₀) (T := some o₁ :: os'.map some)
        q₀ qs' hcp
      cases hfm : findMid q₀.options with
      | none =>
          simp only [hfm] at hr2
          have hE := enforce_eq_of hr1 hr2
          rw [hE, Option.some_bind, hE]
      | some m =>
          simp only [hfm] at hr2
          have hE := enforce_eq_of hr1 hr2
          have hmc := findMid_content hfm
          have hnu : (selectedContents
              (some m :: some o₁ :: os'.map some)).dedup.length ≠ 1 := by
            intro hcon
            have hsc := selectedContents_map_some (m :: o₁ :: os')
            simp only [List.map_cons] at hsc
            rw [hsc] at hcon
            have h1m : o₁.content = m.content :=
              dedup_len_one_all_eq hcon (by simp) (by simp)
            exact countPassing_pos_second (a := o₀) (l := os'.map some)
              (by rw [h1m, hmc]; decide) hcp
          have hcpm : countPassing (some m :: some o₁ :: os'.map some) ≠ 0 :=
            countPassing_pos_head (by rw [hmc]; decide)
          have hE2 := enforce_eq_of (rule1_of_not_uniform (q₀ :: qs') hnu)
            (rule2_of_pos hcpm)
          rw [hE, Option.some_bind, hE2]
    · have hE := enforce_eq_of hr1 (rule2_of_pos hcp)
      rw [hE, Option.some_bind, hE]

/-- C6 witness: the amended idempotence theorem applied to a concrete
two-entry all-answered answer set. -/
theorem claim6_witness :
    (enforce_rules [some oMid, some oPoor] [qMidPoor, qPoorOnly]).bind
        (fun r => enforce_rules r [qMidPoor, qPoorOnly])
      = enforce_rules [some oMid, some oPoor] [qMidPoor, qPoorOnly] :=
  claim6_theorem [some oMid, some oPoor] [qMidPoor, qPoorOnly]
    (by decide) (by decide) (by decide)
